import Mathlib

/-!
Verification development for the vow Lisp interpreter core
(src/core/repl/src/runner.rs): reader and tokenizer, environment arena,
evaluator and builtin library, embedded shallowly.

Modelling conventions:
- Rust f64 numbers are modelled as exact rationals (the spec treats the
  numeric representation as an opaque capability); the special floating
  values inf and nan fall outside this model.
- Rust panics are modelled as error results; the REPL loop has no panic
  handler, so in the session model an error ends the session, mirroring
  unwinding out of run().
- Recursion in the Rust code is bounded here by an explicit fuel argument;
  exhausted fuel stands for nontermination or stack exhaustion.
- The SlotMap arena is modelled as an append-only list with indices as
  keys, valid because the interpreter never removes frames.
- HashMap tables are modelled as association lists with unique keys.
-/

namespace Vow

/-- Numbers: the Rust code uses f64, modelled as exact rationals. -/
abbrev Number := Rat

/-- Executable rational addition: the library operation is irreducible,
which blocks evaluation inside decide, so the model uses this reducible
version, proved equal to the library one below. -/
def numAdd (a b : Number) : Number :=
  Rat.normalize (a.num * b.den + b.num * a.den) (a.den * b.den)
    (Nat.mul_ne_zero a.den_nz b.den_nz)

/-- Executable rational subtraction. -/
def numSub (a b : Number) : Number :=
  Rat.normalize (a.num * b.den - b.num * a.den) (a.den * b.den)
    (Nat.mul_ne_zero a.den_nz b.den_nz)

/-- Executable rational multiplication. -/
def numMul (a b : Number) : Number :=
  Rat.normalize (a.num * b.num) (a.den * b.den)
    (Nat.mul_ne_zero a.den_nz b.den_nz)

/-- Executable rational inverse, mirroring the library definition. -/
def numInv (a : Number) : Number :=
  if h : a.num < 0 then
    { num := -a.den, den := a.num.natAbs
      den_nz := Nat.ne_of_gt (Int.natAbs_pos.2 (Int.ne_of_lt h))
      reduced := Int.natAbs_neg a.den ▸ a.reduced.symm }
  else if h : a.num > 0 then
    { num := a.den, den := a.num.natAbs
      den_nz := Nat.ne_of_gt (Int.natAbs_pos.2 (Int.ne_of_gt h))
      reduced := a.reduced.symm }
  else a

/-- Executable rational division (division by zero gives zero in the
rational model; the f64 value inf is outside the model). -/
def numDiv (a b : Number) : Number := numMul a (numInv b)

/-- Agreement of the executable addition with the library one. -/
theorem numAdd_eq (a b : Number) : numAdd a b = a + b := (Rat.add_def a b).symm

/-- Agreement of the executable subtraction with the library one. -/
theorem numSub_eq (a b : Number) : numSub a b = a - b := (Rat.sub_def a b).symm

/-- Agreement of the executable multiplication with the library one. -/
theorem numMul_eq (a b : Number) : numMul a b = a * b := (Rat.mul_def a b).symm

/-- Agreement of the executable inverse with the library one. -/
theorem numInv_eq (a : Number) : numInv a = a⁻¹ := by
  show numInv a = Rat.inv a
  delta numInv Rat.inv
  rfl

/-- Agreement of the executable division with the library one. -/
theorem numDiv_eq (a b : Number) : numDiv a b = a / b := by
  show numMul a (numInv b) = a / b
  rw [numMul_eq, numInv_eq, div_eq_mul_inv]

/-- Atoms of the interpreter (runner.rs lines 32 to 40). -/
inductive Atom where
| Symbol (s : String)
| Number (n : Number)
| Complex (re im : Number)
| Bool (b : Bool)
| String (s : String)
deriving DecidableEq, Repr

/-- Tags for the native procedures installed by standard_env. -/
inductive Builtin where
| add | sub | mul | div | le | ge | lt | gt | abs | append | apply | begin
| car | cdr | cons | expt | numEq | equalQ | length | list | listQ | map
| max | min | not | nullQ | numberQ | print | procedureQ | round | symbolQ
deriving DecidableEq, Repr

/-- Expressions (runner.rs lines 44 to 50). A Procedure (closure) stores its
parameter names, unevaluated body and captured environment id inline. -/
inductive Exp where
| Atom (a : Atom)
| List (l : List Exp)
| Function (f : Builtin)
| Procedure (parameters : List String) (body : Exp) (env : Nat)

mutual

/-- Structural boolean equality on expressions (full equality, used only to
build decidable equality for the type; the PartialEq impl of the source is
embedded separately as expEq below). -/
def expBeq : Exp → Exp → Bool
| .Atom a, .Atom b => decide (a = b)
| .List a, .List b => expBeqList a b
| .Function f, .Function g => decide (f = g)
| .Procedure ps b e, .Procedure qs c f => decide (ps = qs) && expBeq b c && decide (e = f)
| _, _ => false

/-- Pointwise boolean equality on expression lists. -/
def expBeqList : List Exp → List Exp → Bool
| [], [] => true
| x :: xs, y :: ys => expBeq x y && expBeqList xs ys
| _, _ => false

end

/-- Induction over expressions that hands the list case a hypothesis for
every member, working around the nested inductive. -/
theorem expInduction {motive : Exp → Prop}
    (hAtom : ∀ a, motive (.Atom a))
    (hList : ∀ l, (∀ e ∈ l, motive e) → motive (.List l))
    (hFun : ∀ f, motive (.Function f))
    (hProc : ∀ ps b e, motive b → motive (.Procedure ps b e)) :
    ∀ x, motive x := by
  suffices h : ∀ n x, sizeOf x < n → motive x from
    fun x => h (sizeOf x + 1) x (Nat.lt_succ_self _)
  intro n
  induction n with
  | zero => intro x hx; exact absurd hx (Nat.not_lt_zero _)
  | succ n ih =>
    intro x hx
    match x with
    | .Atom a => exact hAtom a
    | .Function f => exact hFun f
    | .Procedure ps b e =>
      refine hProc ps b e (ih b ?_)
      have hs : sizeOf (Exp.Procedure ps b e) = 1 + sizeOf ps + sizeOf b + sizeOf e := by
        simp
      omega
    | .List l =>
      refine hList l (fun e he => ih e ?_)
      have h1 : sizeOf e < sizeOf l := List.sizeOf_lt_of_mem he
      have h2 : sizeOf (Exp.List l) = 1 + sizeOf l := by simp
      omega

/-- Boolean equality on expression lists is pointwise propositional
equality, given that it is so for every member of the left list. -/
theorem expBeqList_iff (l : List Exp)
    (h : ∀ e ∈ l, ∀ b, (expBeq e b = true) ↔ e = b) :
    ∀ l2, (expBeqList l l2 = true) ↔ l = l2 := by
  induction l with
  | nil => intro l2; cases l2 <;> simp [expBeqList]
  | cons x xs ihx =>
    intro l2
    cases l2 with
    | nil => simp [expBeqList]
    | cons y ys =>
      have hx := h x (by simp) y
      have hrest := ihx (fun e he b => h e (by simp [he]) b) ys
      simp [expBeqList, hx, hrest]

/-- Boolean equality on expressions decides propositional equality. -/
theorem expBeq_iff : ∀ a b : Exp, (expBeq a b = true) ↔ a = b := by
  intro a
  induction a using expInduction with
  | hAtom x => intro b; cases b <;> simp [expBeq]
  | hFun f => intro b; cases b <;> simp [expBeq]
  | hProc ps bd e ihb =>
    intro b
    cases b <;> simp [expBeq, ihb]
    exact and_assoc
  | hList l ihl =>
    intro b
    cases b <;> simp [expBeq]
    exact expBeqList_iff l ihl _

instance : DecidableEq Exp := fun a b => decidable_of_iff _ (expBeq_iff a b)

/-- Panic sites and fallible outcomes of the interpreter; each constructor
corresponds to one family of panic messages in runner.rs. The noFuel value
is the embedding artifact standing for nontermination. -/
inductive Err where
| noFuel
| symbolNotFound (s : String)
| envNotFound
| expectedNumber
| expectedSymbol
| expectedList
| expectedBool
| expectedFunction
| indexOutOfBounds
| emptyEval
| unexpectedClose
| endOfInput
| unexpectedEof
| emptyArgs
deriving DecidableEq, Repr

instance {ε α : Type} [DecidableEq ε] [DecidableEq α] : DecidableEq (Except ε α) :=
  fun a b =>
    match a, b with
    | .ok x, .ok y =>
      if h : x = y then isTrue (by rw [h]) else isFalse (fun hh => h (Except.ok.inj hh))
    | .error x, .error y =>
      if h : x = y then isTrue (by rw [h]) else isFalse (fun hh => h (Except.error.inj hh))
    | .ok _, .error _ => isFalse (fun hh => Except.noConfusion hh)
    | .error _, .ok _ => isFalse (fun hh => Except.noConfusion hh)

/-- The single-quote character. -/
def qChar : Char := Char.ofNat 39

/-- The double-quote character. -/
def dqChar : Char := Char.ofNat 34

/-- The backtick character. -/
def bqChar : Char := Char.ofNat 96

/-- The backslash character. -/
def bsChar : Char := Char.ofNat 92

/-- Decimal digit test. -/
def isDigitChar (c : Char) : Bool := 48 ≤ c.toNat && c.toNat ≤ 57

/-- Value of a decimal digit character. -/
def digitVal (c : Char) : Nat := c.toNat - 48

/-- Natural number denoted by a digit string. -/
def digitsToNat (ds : List Char) : Nat := ds.foldl (fun a c => 10 * a + digitVal c) 0

/-- Powers of ten in the numeric model. -/
def pow10 (k : Nat) : Number := (((10 : Nat) ^ k : Nat) : Number)

/-- Leading digits of a character list, and the rest. -/
def splitDigits (cs : List Char) : List Char × List Char :=
  (cs.takeWhile isDigitChar, cs.dropWhile isDigitChar)

/-- Exponent suffix of a float literal: empty, or e or E with an optional
sign and at least one digit, consuming the whole remainder. -/
def parseExpPart (cs : List Char) : Option Int :=
  match cs with
  | [] => some 0
  | c :: t =>
    if c = 'e' || c = 'E' then
      let p : Int × List Char :=
        match t with
        | '+' :: u => (1, u)
        | '-' :: u => (-1, u)
        | u => (1, u)
      let ds := splitDigits p.2
      if ds.1.isEmpty || !ds.2.isEmpty then none
      else some (p.1 * (digitsToNat ds.1 : Int))
    else none

/-- Model of str::parse for f64 (value taken exactly, as a rational):
optional sign, digits with an optional point and at least one digit
overall, then an optional exponent. The floating values inf and nan are
outside the rational model and treated as parse failures. -/
def parseF64 (s : String) : Option Number :=
  let cs := s.data
  let sgnSplit : Int × List Char :=
    match cs with
    | '+' :: t => (1, t)
    | '-' :: t => (-1, t)
    | t => (1, t)
  let ip := splitDigits sgnSplit.2
  let fp : List Char × List Char :=
    match ip.2 with
    | '.' :: t => splitDigits t
    | t => ([], t)
  match parseExpPart fp.2 with
  | none => none
  | some e =>
    if ip.1.isEmpty && fp.1.isEmpty then none
    else
      let mant : Int := sgnSplit.1 * (digitsToNat (ip.1 ++ fp.1) : Int)
      let base : Number := numDiv (mant : Number) (pow10 fp.1.length)
      some (if 0 ≤ e then numMul base (pow10 e.toNat) else numDiv base (pow10 (-e).toNat))

/-- Sign character test. -/
def isSignChar (c : Char) : Bool := c = '+' || c = '-'

/-- Index of the last sign character usable as the real and imaginary
split of a complex literal: not in the first position and not directly
after an exponent marker. -/
def lastSplitIdx (cs : List Char) : Option Nat :=
  (List.range cs.length).reverse.find? (fun j =>
    decide (0 < j) &&
      (match cs[j]? with | some c => isSignChar c | none => false) &&
      (match cs[j-1]? with | some p => !(p = 'e' || p = 'E') | none => false))

/-- Magnitude written before the final i of a complex literal: empty or a
bare sign means one. -/
def parseImagMag (cs : List Char) : Option Number :=
  match cs with
  | [] => some 1
  | ['+'] => some 1
  | ['-'] => some (-1)
  | _ => parseF64 (String.mk cs)

/-- Model of Complex64::from_str for the token shapes the reader can meet:
a pure real, a pure imaginary (bi, i, +i, -i), or a+bi and a-bi forms. -/
def parseComplex (s : String) : Option (Number × Number) :=
  let cs := s.data
  match cs.getLast? with
  | some 'i' =>
    let body := cs.dropLast
    match lastSplitIdx body with
    | some j =>
      match parseF64 (String.mk (body.take j)), parseImagMag (body.drop j) with
      | some re, some im => some (re, im)
      | _, _ => none
    | none =>
      match parseImagMag body with
      | some im => some (0, im)
      | none => none
  | _ =>
    match parseF64 s with
    | some re => some (re, 0)
    | none => none

/-- First-character test on a string (starts_with for one character). -/
def headIs (s : String) (c : Char) : Bool :=
  match s.data with
  | d :: _ => d = c
  | [] => false

/-- Literal classification (runner.rs atom, lines 409 to 429). In the
string branch, the Rust slice token[1..=token.len()-1] is every byte except
the first, so only the leading double quote is removed and the trailing
double quote is retained in the String atom. -/
def atom (token : String) : Atom :=
  if token = "#t" then .Bool true
  else if token = "#f" then .Bool false
  else if headIs token dqChar then
    .String (String.mk (token.data.drop 1))
  else
    match parseF64 token with
    | some n => .Number n
    | none =>
      match parseComplex token with
      | some (re, im) => .Complex re im
      | none => .Symbol token

/-- Whitespace, as in the regex class for white space. The regex crate is
Unicode-aware by default, so this is the set of characters with the
Unicode White_Space property: tab through carriage return, space, next
line, no-break space, ogham space mark, the en-quad through hair-space
block, line separator, paragraph separator, narrow no-break space, medium
mathematical space, and ideographic space. -/
def isWs (c : Char) : Bool :=
  (9 ≤ c.toNat && c.toNat ≤ 13) || c.toNat = 32 || c.toNat = 133 || c.toNat = 160 ||
    c.toNat = 5760 || (8192 ≤ c.toNat && c.toNat ≤ 8202) || c.toNat = 8232 ||
    c.toNat = 8233 || c.toNat = 8239 || c.toNat = 8287 || c.toNat = 12288

/-- Characters excluded from a bare token: whitespace and the delimiters
open paren, close paren, double quote, single quote, backtick, comma and
semicolon. -/
def isDelim (c : Char) : Bool :=
  isWs c || c = '(' || c = ')' || c = ';' || c = ',' ||
    c = qChar || c = dqChar || c = bqChar

/-- Scan the body of a string literal after the opening double quote: a
backslash takes the following character verbatim; the scan closes at the
next plain double quote. Returns the body characters and the rest of the
line, or none when the literal is unterminated. -/
def scanStringBody : List Char → Option (List Char × List Char)
| [] => none
| c :: rest =>
  if c = bsChar then
    match rest with
    | [] => none
    | d :: rest2 =>
      match scanStringBody rest2 with
      | some (body, r) => some (c :: d :: body, r)
      | none => none
  else if c = dqChar then some ([], rest)
  else
    match scanStringBody rest with
    | some (body, r) => some (c :: body, r)
    | none => none

/-- One application of the tokenizer regex at the head of the line
(runner.rs next_token, lines 355 to 375): skip whitespace, then the first
matching alternative: comma-at, a single punctuation character, a quoted
string literal, a comment to end of line, or a maximal run of non-delimiter
characters. The run is empty exactly at an unterminated string literal.
Returns the captured token and the remaining line. -/
def rawToken (s : List Char) : Option (String × List Char) :=
  match s.dropWhile isWs with
  | [] => none
  | c :: rest =>
    if c = ',' then
      match rest with
      | '@' :: rest2 => some (",@", rest2)
      | _ => some (String.singleton c, rest)
    else if c = '(' || c = ')' || c = qChar || c = bqChar then
      some (String.singleton c, rest)
    else if c = dqChar then
      match scanStringBody rest with
      | some (body, r) => some (String.mk (dqChar :: (body ++ [dqChar])), r)
      | none => some ("", c :: rest)
    else if c = ';' then some (String.mk (c :: rest), [])
    else
      some (String.mk ((c :: rest).takeWhile (fun d => !isDelim d)),
        (c :: rest).dropWhile (fun d => !isDelim d))

/-- The skip condition of the next_token loop: the token is empty or
starts with a semicolon (is_empty and starts_with on the character
level). -/
def skipTok (t : String) : Bool :=
  match t.data with
  | [] => true
  | c :: _ => c = ';'

/-- The next_token retry loop: comment tokens and the empty token are
skipped. In the single-line model an exhausted line yields none (the real
reader would pull the next physical line; REPL submissions are one line).
Fuel bounds the loop, which in Rust does not terminate on an unterminated
string literal. -/
def nextTokenFuel : Nat → List Char → Except Err (Option (String × List Char))
| 0, _ => .error .noFuel
| n+1, s =>
  match rawToken s with
  | none => .ok none
  | some (t, rest) =>
    if skipTok t then nextTokenFuel n rest
    else .ok (some (t, rest))

/-- Tokenizer entry point with enough fuel for every terminating case. -/
def nextToken (s : List Char) : Except Err (Option (String × List Char)) :=
  nextTokenFuel (s.length + 1) s

/-- The four quote-shorthand marker tokens. -/
def qTok : String := String.singleton qChar

/-- The backtick marker token. -/
def bqTok : String := String.singleton bqChar

/-- Marker test (runner.rs in_quotes, lines 378 to 380). -/
def in_quotes (s : String) : Bool := s = qTok || s = bqTok || s = "," || s = ",@"

mutual

/-- Recursive-descent reader (runner.rs read_ahead, lines 382 to 403). Note
that the quote-shorthand branch wraps the following expression with the
marker token itself as the symbol. -/
def read_ahead : Nat → String → List Char → Except Err (Exp × List Char)
| 0, _, _ => .error .noFuel
| n+1, token, port =>
  if token = "(" then
    match readTail n port with
    | .ok (es, p) => .ok (.List es, p)
    | .error e => .error e
  else if token = ")" then .error .unexpectedClose
  else if in_quotes token then
    match nextToken port with
    | .error e => .error e
    | .ok none => .error .unexpectedEof
    | .ok (some (t, rest)) =>
      match read_ahead n t rest with
      | .ok (e, p) => .ok (.List [.Atom (.Symbol token), e], p)
      | .error e => .error e
  else .ok (.Atom (atom token), port)

/-- The list-reading loop inside read_ahead: elements until a close paren;
running out of tokens is the End of Input panic. -/
def readTail : Nat → List Char → Except Err (List Exp × List Char)
| 0, _ => .error .noFuel
| n+1, port =>
  match nextToken port with
  | .error e => .error e
  | .ok none => .error .endOfInput
  | .ok (some (t, rest)) =>
    if t = ")" then .ok ([], rest)
    else
      match read_ahead n t rest with
      | .ok (e, p) =>
        match readTail n p with
        | .ok (es, p2) => .ok (e :: es, p2)
        | .error e2 => .error e2
      | .error e => .error e

end

/-- One call of read (runner.rs 405 to 407): next token, then read_ahead. -/
def read (n : Nat) (port : List Char) : Except Err (Option (Exp × List Char)) :=
  match nextToken port with
  | .error e => .error e
  | .ok none => .ok none
  | .ok (some (t, rest)) =>
    match read_ahead n t rest with
    | .ok (e, p) => .ok (some (e, p))
    | .error e => .error e

/-- Parse the first form of a submission string. -/
def readString (n : Nat) (s : String) : Except Err (Option (Exp × List Char)) :=
  read n s.data

/-- One lexical frame (runner.rs Env, lines 126 to 130): optional parent id
and a symbol table. -/
structure Env where
  outer : Option Nat := none
  symbols : List (String × Exp) := []
deriving DecidableEq

/-- The environment arena: SlotMap keys are modelled as list indices, valid
because the interpreter only ever inserts. -/
abbrev EnvTree := List Env

/-- Lookup in a frame table. -/
def lookupSym (m : List (String × Exp)) (k : String) : Option Exp :=
  match m.find? (fun p => p.1 = k) with
  | some p => some p.2
  | none => none

/-- HashMap::insert: overwrite the binding when the key is present,
otherwise add it. -/
def mapInsert (m : List (String × Exp)) (k : String) (v : Exp) : List (String × Exp) :=
  if m.any (fun p => p.1 = k) then m.map (fun p => if p.1 = k then (k, v) else p)
  else m ++ [(k, v)]

/-- Env::insert (runner.rs 145 to 147). -/
def Env.insert (e : Env) (k : String) (v : Exp) : Env :=
  { e with symbols := mapInsert e.symbols k v }

/-- HashMap::extend over the zip of parameters with arguments. -/
def extendZip (m : List (String × Exp)) (ps : List String) (args : List Exp) :
    List (String × Exp) :=
  (ps.zip args).foldl (fun acc p => mapInsert acc p.1 p.2) m

/-- Env::insert_into (runner.rs 133 to 143): allocate a child frame whose
table is the positional zip of parameters with arguments, parented to the
given frame; returns the new tree and the id of the new frame. -/
def Env.insert_into (t : EnvTree) (ps : List String) (args : List Exp)
    (outer : Option Nat) : EnvTree × Nat :=
  (t ++ [{ outer := outer, symbols := extendZip [] ps args }], t.length)

/-- Env::resolve (runner.rs 161 to 174): look up a symbol along the parent
chain; the two panics become errors. Fuel bounds the chain walk. -/
def Env.resolve : Nat → Env → EnvTree → String → Except Err Exp
| 0, _, _, _ => .error .noFuel
| n+1, e, t, s =>
  match lookupSym e.symbols s with
  | some v => .ok v
  | none =>
    match e.outer with
    | some o =>
      match t[o]? with
      | some e2 => Env.resolve n e2 t s
      | none => .error .envNotFound
    | none => .error (.symbolNotFound s)

/-- Env::find (runner.rs 176 to 185): id of the nearest frame binding the
symbol, walking outward from the current frame. -/
def Env.find : Nat → Env → EnvTree → String → Nat → Except Err Nat
| 0, _, _, _, _ => .error .noFuel
| n+1, e, t, s, current =>
  if (lookupSym e.symbols s).isSome then .ok current
  else
    match e.outer with
    | some o =>
      match t[o]? with
      | some e2 => Env.find n e2 t s o
      | none => .error .envNotFound
    | none => .error (.symbolNotFound s)

/-- The f64 constant for pi: the exact value of the double nearest pi,
which is 884279719003555 divided by two to the 48. -/
def piApprox : Number := mkRat 884279719003555 281474976710656

/-- The builtin table (runner.rs standard_env, lines 225 to 299), in
registration order. -/
def standard_env : Env :=
  { outer := none,
    symbols := [
      ("+", .Function .add), ("-", .Function .sub), ("*", .Function .mul),
      ("/", .Function .div), ("<=", .Function .le), (">=", .Function .ge),
      ("<", .Function .lt), (">", .Function .gt), ("abs", .Function .abs),
      ("append", .Function .append), ("apply", .Function .apply),
      ("begin", .Function .begin), ("car", .Function .car),
      ("cdr", .Function .cdr), ("cons", .Function .cons),
      ("expt", .Function .expt), ("=", .Function .numEq),
      ("equal?", .Function .equalQ), ("length", .Function .length),
      ("list", .Function .list), ("list?", .Function .listQ),
      ("map", .Function .map), ("max", .Function .max),
      ("min", .Function .min), ("not", .Function .not),
      ("null?", .Function .nullQ), ("number?", .Function .numberQ),
      ("print", .Function .print), ("procedure?", .Function .procedureQ),
      ("round", .Function .round), ("symbol?", .Function .symbolQ),
      ("pi", .Atom (.Number piApprox))] }

/-- Exp::as_number (runner.rs 89 to 94); the panic becomes an error. -/
def asNumber : Exp → Except Err Number
| .Atom (.Number n) => .ok n
| _ => .error .expectedNumber

/-- Exp::as_symbol (runner.rs 61 to 66). -/
def asSymbol : Exp → Except Err String
| .Atom (.Symbol s) => .ok s
| _ => .error .expectedSymbol

/-- Exp::as_exp_list (runner.rs 75 to 80). -/
def asExpList : Exp → Except Err (List Exp)
| .List l => .ok l
| _ => .error .expectedList

/-- Exp::as_bool (runner.rs 96 to 102): booleans are themselves, a list is
true iff non-empty, anything else panics. -/
def asBool : Exp → Except Err Bool
| .Atom (.Bool b) => .ok b
| .List l => .ok (!l.isEmpty)
| _ => .error .expectedBool

/-- Exp::as_symbol_list (runner.rs 82 to 87). -/
def asSymbolList (e : Exp) : Except Err (List String) :=
  match e with
  | .List l => l.mapM asSymbol
  | _ => .error .expectedList

/-- Exp::is_symbol (runner.rs 68 to 73). -/
def is_symbol (e : Exp) (s : String) : Bool :=
  match e with
  | .Atom (.Symbol t) => t = s
  | _ => false

/-- Vec indexing, with the index panic as an error. -/
def nth : List Exp → Nat → Except Err Exp
| x :: _, 0 => .ok x
| _ :: xs, n+1 => nth xs n
| [], _ => .error .indexOutOfBounds

mutual

/-- The PartialEq impl for Exp (runner.rs 113 to 121): atoms by value,
lists elementwise, every other pairing false. This is the equality used by
the equal? builtin. -/
def expEq : Exp → Exp → Bool
| .Atom a, .Atom b => decide (a = b)
| .List a, .List b => expEqList a b
| _, _ => false

/-- Vec PartialEq: equal length and elementwise equality. -/
def expEqList : List Exp → List Exp → Bool
| [], [] => true
| x :: xs, y :: ys => expEq x y && expEqList xs ys
| _, _ => false

end

mutual

/-- Expressions containing no native procedure and no closure. -/
def procFree : Exp → Bool
| .Atom _ => true
| .List l => procFreeList l
| .Function _ => false
| .Procedure _ _ _ => false

/-- procFree over every member of a list. -/
def procFreeList : List Exp → Bool
| [] => true
| x :: xs => procFree x && procFreeList xs

end

/-- Absolute value in the numeric model. -/
def ratAbs (q : Number) : Number := if q.num < 0 then -q else q

/-- Floor of a rational, executable. -/
def numFloor (q : Number) : Int := Int.fdiv q.num q.den

/-- The rational one half. -/
def oneHalf : Number := mkRat 1 2

/-- f64::round (half away from zero) on the rational model. -/
def ratRound (q : Number) : Number :=
  if 0 ≤ q.num then ((numFloor (numAdd q oneHalf) : Int) : Number)
  else -((numFloor (numAdd (-q) oneHalf) : Int) : Number)

/-- Iterated executable multiplication. -/
def numPowNat : Number → Nat → Number
| _, 0 => 1
| a, n+1 => numMul a (numPowNat a n)

/-- Largest i at most k whose square is at most n (executable integer
square root, by countdown). -/
def natSqrtAux : Nat → Nat → Nat
| 0, _ => 0
| k+1, n => if (k+1) * (k+1) ≤ n then k+1 else natSqrtAux k n

/-- Integer square root (floor). -/
def natSqrt (n : Nat) : Nat := natSqrtAux n n

/-- Exact square root of a rational, when one exists. -/
def ratSqrt (a : Number) : Option Number :=
  if a.num < 0 then none
  else
    let sn := natSqrt a.num.toNat
    let sd := natSqrt a.den
    if sn * sn = a.num.toNat && sd * sd = a.den then some (mkRat sn sd) else none

/-- f64::powf on the rational model: integral exponents are exact, and a
half-integral exponent is exact when the rational square root exists; any
other result of powf is irrational (or the nan of a negative base), falls
outside the rational model, and is mapped to zero. -/
def ratPow (a b : Number) : Number :=
  if b.den = 1 then
    (if 0 ≤ b.num then numPowNat a b.num.toNat else numInv (numPowNat a (-b.num).toNat))
  else if b.den = 2 then
    match ratSqrt (if 0 ≤ b.num then numPowNat a b.num.natAbs
      else numInv (numPowNat a b.num.natAbs)) with
    | some r => r
    | none => 0
  else 0

/-- as_number over every argument, in order (the lazy iterator panics at
the first non-number, as mapM stops at the first error). -/
def mapNumbers (l : List Exp) : Except Err (List Number) := l.mapM asNumber

/-- Iterator::max_by over numbers; empty input is the expect panic. -/
def listMaxNum : List Number → Except Err Number
| [] => .error .emptyArgs
| x :: xs => .ok (xs.foldl (fun a b => if a ≤ b then b else a) x)

/-- Iterator::min_by over numbers; empty input is the expect panic. -/
def listMinNum : List Number → Except Err Number
| [] => .error .emptyArgs
| x :: xs => .ok (xs.foldl (fun a b => if b ≤ a then b else a) x)

/-- A number argument at an index: Vec index panic, then as_number. -/
def numArg (l : List Exp) (i : Nat) : Except Err Number := do
  let e ← nth l i
  asNumber e

/-- Two-number builtins: read the first two arguments only. -/
def num2 (l : List Exp) (f : Number → Number → Exp) : Except Err Exp := do
  let a ← numArg l 0
  let b ← numArg l 1
  return f a b

/-- The builtins that do not re-enter the evaluator (runner.rs
standard_env, lines 225 to 299), over already-evaluated arguments. The
apply and map builtins re-enter the evaluator and live in the fueled
dispatcher applyBuiltin; they are unreachable here. -/
def applyPure : Builtin → List Exp → Except Err Exp
| .add, l => num2 l (fun a b => .Atom (.Number (numAdd a b)))
| .sub, l => num2 l (fun a b => .Atom (.Number (numSub a b)))
| .mul, l => num2 l (fun a b => .Atom (.Number (numMul a b)))
| .div, l => num2 l (fun a b => .Atom (.Number (numDiv a b)))
| .le, l => num2 l (fun a b => .Atom (.Bool (decide (a ≤ b))))
| .ge, l => num2 l (fun a b => .Atom (.Bool (decide (b ≤ a))))
| .lt, l => num2 l (fun a b => .Atom (.Bool (decide (a < b))))
| .gt, l => num2 l (fun a b => .Atom (.Bool (decide (b < a))))
| .abs, l => do let a ← numArg l 0; return .Atom (.Number (ratAbs a))
| .append, l => do let ls ← l.mapM asExpList; return .List ls.flatten
| .begin, l =>
  match l.getLast? with
  | some e => .ok e
  | none => .error .indexOutOfBounds
| .car, l => do let a ← nth l 0; let xs ← asExpList a; nth xs 0
| .cdr, l => do let a ← nth l 0; let xs ← asExpList a; return .List (xs.drop 1)
| .cons, l => do
  let a ← nth l 0; let b ← nth l 1; let xs ← asExpList b; return .List (a :: xs)
| .expt, l => num2 l (fun a b => .Atom (.Number (ratPow a b)))
| .numEq, l => num2 l (fun a b => .Atom (.Bool (decide (a = b))))
| .equalQ, l => do let a ← nth l 0; let b ← nth l 1; return .Atom (.Bool (expEq a b))
| .length, l => do
  let a ← nth l 0; let xs ← asExpList a; return .Atom (.Number (xs.length : Number))
| .list, l => .ok (.List l)
| .listQ, l => do
  let a ← nth l 0
  return .Atom (.Bool (match a with | .List _ => true | _ => false))
| .max, l => do let ns ← mapNumbers l; let m ← listMaxNum ns; return .Atom (.Number m)
| .min, l => do let ns ← mapNumbers l; let m ← listMinNum ns; return .Atom (.Number m)
| .not, l => do let a ← nth l 0; let b ← asBool a; return .Atom (.Bool (!b))
| .nullQ, l => do let a ← nth l 0; let xs ← asExpList a; return .Atom (.Bool xs.isEmpty)
| .numberQ, l => do
  let a ← nth l 0
  return .Atom (.Bool (match a with | .Atom (.Number _) => true | _ => false))
| .print, _ => .ok (.List [])
| .procedureQ, l => do
  let a ← nth l 0
  return .Atom (.Bool (match a with
    | .Function _ => true | .Procedure _ _ _ => true | _ => false))
| .round, l => do let a ← numArg l 0; return .Atom (.Number (ratRound a))
| .symbolQ, l => do
  let a ← nth l 0
  return .Atom (.Bool (match a with | .Atom (.Symbol _) => true | _ => false))
| .apply, _ => .error .noFuel
| .map, _ => .error .noFuel

mutual

/-- The evaluator (runner.rs eval, lines 301 to 347), with fuel standing
for the Rust call stack; the environment tree is threaded explicitly, and
the match follows the order of the Rust match arms. -/
def eval : Nat → Exp → EnvTree → Nat → Except Err (Exp × EnvTree)
| 0, _, _, _ => .error .noFuel
| n+1, x, t, envId =>
  match x with
  | .Atom (.Symbol s) =>
    match t[envId]? with
    | some e =>
      match Env.resolve n e t s with
      | .ok v => .ok (v, t)
      | .error er => .error er
    | none => .error .envNotFound
  | .Atom _ => .ok (x, t)
  | .Function _ => .ok (x, t)
  | .Procedure _ _ _ => .ok (x, t)
  | .List [] => .error .emptyEval
  | .List (h :: rest) =>
    if is_symbol h "quote" then
      match nth (h :: rest) 1 with
      | .ok v => .ok (v, t)
      | .error er => .error er
    else if is_symbol h "if" then
      match nth (h :: rest) 1 with
      | .error er => .error er
      | .ok test =>
        match eval n test t envId with
        | .error er => .error er
        | .ok (tv, t1) =>
          match asBool tv with
          | .error er => .error er
          | .ok b =>
            match nth (h :: rest) (if b then 2 else 3) with
            | .error er => .error er
            | .ok br => eval n br t1 envId
    else if is_symbol h "define" then
      match nth (h :: rest) 2 with
      | .error er => .error er
      | .ok vexp =>
        match eval n vexp t envId with
        | .error er => .error er
        | .ok (v, t1) =>
          match t1[envId]? with
          | none => .error .envNotFound
          | some frame =>
            match nth (h :: rest) 1 with
            | .error er => .error er
            | .ok nameExp =>
              match asSymbol nameExp with
              | .error er => .error er
              | .ok name => .ok (v, t1.set envId (frame.insert name v))
    else if is_symbol h "set!" then
      match nth (h :: rest) 1 with
      | .error er => .error er
      | .ok nameExp =>
        match asSymbol nameExp with
        | .error er => .error er
        | .ok name =>
          match nth (h :: rest) 2 with
          | .error er => .error er
          | .ok vexp =>
            match eval n vexp t envId with
            | .error er => .error er
            | .ok (v, t1) =>
              match t1[envId]? with
              | none => .error .envNotFound
              | some frame =>
                match Env.find n frame t1 name envId with
                | .error er => .error er
                | .ok target =>
                  match t1[target]? with
                  | none => .error .envNotFound
                  | some tf => .ok (.Atom (.Bool true), t1.set target (tf.insert name v))
    else if is_symbol h "lambda" then
      match nth (h :: rest) 1 with
      | .error er => .error er
      | .ok pexp =>
        match asSymbolList pexp with
        | .error er => .error er
        | .ok ps =>
          match nth (h :: rest) 2 with
          | .error er => .error er
          | .ok body => .ok (.Procedure ps body envId, t)
    else
      match eval n h t envId with
      | .error er => .error er
      | .ok (p, t1) =>
        match evalArgs n rest t1 envId with
        | .error er => .error er
        | .ok (args, t2) => invoke n p t2 args

/-- Left to right evaluation of the operands of an application. -/
def evalArgs : Nat → List Exp → EnvTree → Nat → Except Err (List Exp × EnvTree)
| 0, _, _, _ => .error .noFuel
| _+1, [], t, _ => .ok ([], t)
| n+1, x :: xs, t, envId =>
  match eval n x t envId with
  | .error er => .error er
  | .ok (v, t1) =>
    match evalArgs n xs t1 envId with
    | .ok (vs, t2) => .ok (v :: vs, t2)
    | .error er => .error er

/-- Exp::invoke (runner.rs 104 to 110) together with Procedure::invoke
(runner.rs 200 to 204): a native function dispatches on its tag; a closure
allocates a child frame zipping parameters with arguments, parented to the
captured frame, and evaluates its body there; anything else panics. -/
def invoke : Nat → Exp → EnvTree → List Exp → Except Err (Exp × EnvTree)
| 0, _, _, _ => .error .noFuel
| n+1, f, t, args =>
  match f with
  | .Function b => applyBuiltin n b t args
  | .Procedure ps body env =>
    match Env.insert_into t ps args (some env) with
    | (t1, newId) => eval n body t1 newId
  | _ => .error .expectedFunction

/-- Dispatcher for native functions: apply passes its remaining arguments
unchanged (no flattening) to the invoke path of its first argument; map
invokes its first argument on each member of its second; every other
builtin is pure. -/
def applyBuiltin : Nat → Builtin → EnvTree → List Exp → Except Err (Exp × EnvTree)
| 0, _, _, _ => .error .noFuel
| n+1, .apply, t, l =>
  match nth l 0 with
  | .error er => .error er
  | .ok f => invoke n f t (l.drop 1)
| n+1, .map, t, l =>
  match nth l 1 with
  | .error er => .error er
  | .ok second =>
    match asExpList second with
    | .error er => .error er
    | .ok xs =>
      match nth l 0 with
      | .error er => .error er
      | .ok f =>
        match mapInvoke n f xs t with
        | .ok (vs, t1) => .ok (.List vs, t1)
        | .error er => .error er
| _+1, b, t, l =>
  match applyPure b l with
  | .ok v => .ok (v, t)
  | .error er => .error er

/-- The iterator inside the map builtin. -/
def mapInvoke : Nat → Exp → List Exp → EnvTree → Except Err (List Exp × EnvTree)
| 0, _, _, _ => .error .noFuel
| _+1, _, [], t => .ok ([], t)
| n+1, f, x :: xs, t =>
  match invoke n f t [x] with
  | .error er => .error er
  | .ok (v, t1) =>
    match mapInvoke n f xs t1 with
    | .ok (vs, t2) => .ok (v :: vs, t2)
    | .error er => .error er

end

/-- Model of the f64 Display formatting restricted to the rational model:
integers print without a point, other values print the shortest decimal
expansion when one exists (denominator with only the factors two and
five). Values with no finite decimal expansion cannot arise from parsing
and print with a slash, a form the reader does not read back. -/
def fmtNum (q : Number) : String :=
  let sgn := if q.num < 0 then "-" else ""
  let n := q.num.natAbs
  if q.den = 1 then sgn ++ Nat.repr n
  else
    match (List.range 64).find? (fun k => decide (0 < k) && decide (n * 10 ^ k % q.den = 0)) with
    | some k =>
      let scaled := n * 10 ^ k / q.den
      let ds := Nat.repr scaled
      let ds := if ds.length ≤ k then
          String.mk (List.replicate (k + 1 - ds.length) '0') ++ ds
        else ds
      sgn ++ ds.take (ds.length - k) ++ "." ++ ds.drop (ds.length - k)
    | none => sgn ++ Nat.repr n ++ "/" ++ Nat.repr q.den
/-- Model of the num_complex Display format: real part, sign, imaginary
magnitude, then the letter i. -/
def fmtComplex (re im : Number) : String :=
  if im < 0 then fmtNum re ++ "-" ++ fmtNum (-im) ++ "i"
  else fmtNum re ++ "+" ++ fmtNum im ++ "i"

/-- Space-separated concatenation, as in the join of to_string. -/
def joinSpace : List String → String
| [] => ""
| [s] => s
| s :: rest => s ++ " " ++ joinSpace rest

mutual

/-- Rendering (runner.rs to_string, lines 431 to 445). -/
def to_string : Exp → String
| .Atom (.Bool true) => "#t"
| .Atom (.Bool false) => "#f"
| .Atom (.Symbol s) => s
| .Atom (.Number n) => fmtNum n
| .Atom (.Complex re im) => fmtComplex re im
| .Atom (.String s) => String.singleton dqChar ++ s ++ String.singleton dqChar
| .List l => "(" ++ joinSpace (toStringList l) ++ ")"
| .Function _ => "<function>"
| .Procedure _ _ _ => "<procedure>"

/-- to_string mapped over a list of expressions. -/
def toStringList : List Exp → List String
| [] => []
| x :: xs => to_string x :: toStringList xs

end

/-- The id of the root frame: the first (and only) insertion run() makes
before the loop. -/
def rootId : Nat := 0

/-- The arena at session start: only the root frame with the builtins. -/
def initialTree : EnvTree := [standard_env]

/-- The inner loop of run() over one submission: parse and evaluate forms
until the line is exhausted, collecting each result in print order. An
error is a Rust panic and unwinds. -/
def evalForms : Nat → List Char → EnvTree → Except Err (List Exp × EnvTree)
| 0, _, _ => .error .noFuel
| n+1, port, t =>
  match read n port with
  | .error er => .error er
  | .ok none => .ok ([], t)
  | .ok (some (e, rest)) =>
    match eval n e t rootId with
    | .error er => .error er
    | .ok (v, t1) =>
      match evalForms n rest t1 with
      | .ok (vs, t2) => .ok (v :: vs, t2)
      | .error er => .error er

/-- The REPL session over a list of submitted lines (runner.rs run, lines
451 to 485). There is no panic handler, so a panic unwinds out of the
loop and ends the session: later submissions are not processed. -/
def runSession : Nat → EnvTree → List String → List (Except Err Exp)
| _, _, [] => []
| n, t, s :: rest =>
  match evalForms n s.data t with
  | .ok (vs, t1) => vs.map Except.ok ++ runSession n t1 rest
  | .error er => [.error er]

/-- Parse the first form of a line and evaluate it in a fresh session. -/
def evalString (n : Nat) (s : String) : Except Err Exp :=
  match read n s.data with
  | .error er => .error er
  | .ok none => .error .unexpectedEof
  | .ok (some (e, _)) =>
    match eval n e initialTree rootId with
    | .ok (v, _) => .ok v
    | .error er => .error er

/-- Modelled from the spec: the flattened argument sequence that the spec
claims the apply builtin passes on, with list contents spliced into the
argument sequence. -/
def flattenArgs (l : List Exp) : List Exp :=
  l.flatMap (fun x => match x with | .List xs => xs | e => [e])

/-- A name the tokenizer returns as one bare token: nonempty and free of
whitespace and delimiter characters. -/
def tokenShaped (s : String) : Bool :=
  match s.data with
  | [] => false
  | c :: cs => !isDelim c && cs.all (fun d => !isDelim d)

mutual

/-- The round-trip fragment: Bool atoms; Symbol, Number and Complex atoms
whose rendering is a single bare token that the literal classifier maps
back to the same atom; and lists of such. String atoms are excluded by
the trailing-quote bug of the classifier. -/
def goodExp : Exp → Bool
| .Atom (.Bool _) => true
| .Atom (.Symbol s) => tokenShaped s && decide (atom s = .Symbol s)
| .Atom (.Number q) => tokenShaped (fmtNum q) && decide (atom (fmtNum q) = .Number q)
| .Atom (.Complex re im) =>
  tokenShaped (fmtComplex re im) && decide (atom (fmtComplex re im) = .Complex re im)
| .Atom (.String _) => false
| .List l => goodExpList l
| .Function _ => false
| .Procedure _ _ _ => false

/-- goodExp over every member of a list. -/
def goodExpList : List Exp → Bool
| [] => true
| x :: xs => goodExp x && goodExpList xs

end

/-- The frame at an id binds the symbol. -/
def bindsAt (t : EnvTree) (i : Nat) (s : String) : Bool :=
  match t[i]? with
  | some e => (lookupSym e.symbols s).isSome
  | none => false

/-- The frame o is the nearest one binding s on the outward chain from i:
every frame strictly before it on the chain lacks the binding. -/
inductive NearestOwner (t : EnvTree) (s : String) : Nat → Nat → Prop
| here (i : Nat) (e : Env) : t[i]? = some e → (lookupSym e.symbols s).isSome = true →
    NearestOwner t s i i
| outer (i : Nat) (e : Env) (o j : Nat) : t[i]? = some e →
    (lookupSym e.symbols s).isSome = false → e.outer = some o →
    NearestOwner t s o j → NearestOwner t s i j

/-- No frame on the outward chain from i binds s, and the chain ends at a
root frame. -/
inductive Unbound (t : EnvTree) (s : String) : Nat → Prop
| root (i : Nat) (e : Env) : t[i]? = some e → (lookupSym e.symbols s).isSome = false →
    e.outer = none → Unbound t s i
| outer (i : Nat) (e : Env) (o : Nat) : t[i]? = some e →
    (lookupSym e.symbols s).isSome = false → e.outer = some o →
    Unbound t s o → Unbound t s i

/-! ## General lemmas about the frame tables -/

/-- Lookup in a table with a leading pair. -/
theorem lookupSym_cons (k : String) (v : Exp) (m : List (String × Exp)) (k2 : String) :
    lookupSym ((k, v) :: m) k2 = if k = k2 then some v else lookupSym m k2 := by
  by_cases h : k = k2
  · simp [lookupSym, List.find?_cons_of_pos, h]
  · simp [lookupSym, List.find?_cons_of_neg, h]

/-- Inserting an absent key appends it. -/
theorem mapInsert_not_mem (m : List (String × Exp)) (k : String) (v : Exp)
    (h : m.any (fun p => p.1 = k) = false) : mapInsert m k v = m ++ [(k, v)] := by
  simp [mapInsert, h]

/-- Extending a table with a zip of fresh, distinct parameter names appends
exactly the zip. -/
theorem extendZip_nodup (ps : List String) :
    ∀ (args : List Exp) (m : List (String × Exp)),
      ps.Nodup → (∀ q ∈ m, q.1 ∉ ps) → extendZip m ps args = m ++ ps.zip args := by
  induction ps with
  | nil => intro args m _ _; cases args <;> simp [extendZip]
  | cons p ps ih =>
    intro args m hnd hdis
    cases args with
    | nil => simp [extendZip]
    | cons a as =>
      have hany : m.any (fun q => q.1 = p) = false := by
        rw [List.any_eq_false]
        intro q hq
        simp only [decide_eq_true_eq]
        exact fun hqp => hdis q hq (hqp ▸ List.mem_cons_self p ps)
      have step : extendZip m (p :: ps) (a :: as) = extendZip (mapInsert m p a) ps as := by
        simp [extendZip, List.zip_cons_cons]
      rw [step, mapInsert_not_mem m p a hany,
        ih as (m ++ [(p, a)]) (List.Nodup.of_cons hnd) ?_]
      · simp [List.zip_cons_cons]
      · intro q hq
        rcases List.mem_append.mp hq with hm | he
        · exact fun hx => hdis q hm (List.mem_cons_of_mem _ hx)
        · have hq2 : q = (p, a) := by simpa using he
          subst hq2
          exact (List.nodup_cons.mp hnd).1

/-- In the zip of distinct parameter names with arguments, a parameter
with an argument at its position maps to that argument. -/
theorem lookupSym_zip_lt (ps : List String) :
    ∀ (args : List Exp) (i : Nat), ps.Nodup →
      ∀ (h1 : i < ps.length) (h2 : i < args.length),
      lookupSym (ps.zip args) ps[i] = some args[i] := by
  induction ps with
  | nil => intro args i _ h1; simp at h1
  | cons p ps ih =>
    intro args i hnd h1 h2
    cases args with
    | nil => simp at h2
    | cons a as =>
      cases i with
      | zero => simp [List.zip_cons_cons, lookupSym_cons]
      | succ j =>
        have hp : p ∉ ps := (List.nodup_cons.mp hnd).1
        have hj1 : j < ps.length := by simpa using h1
        have hmem : ps[j] ∈ ps := List.getElem_mem hj1
        have hne : p ≠ ps[j] := fun h => hp (h ▸ hmem)
        simp only [List.zip_cons_cons, List.getElem_cons_succ, lookupSym_cons, if_neg hne]
        exact ih as j (List.Nodup.of_cons hnd) hj1 (by simpa using h2)

/-- In the zip of distinct parameter names with arguments, a parameter
beyond the argument count is unbound. -/
theorem lookupSym_zip_ge (ps : List String) :
    ∀ (args : List Exp) (i : Nat), ps.Nodup → args.length ≤ i →
      ∀ (h1 : i < ps.length), lookupSym (ps.zip args) ps[i] = none := by
  induction ps with
  | nil => intro args i _ _ h1; simp at h1
  | cons p ps ih =>
    intro args i hnd hle h1
    cases args with
    | nil => simp [lookupSym]
    | cons a as =>
      cases i with
      | zero => simp at hle
      | succ j =>
        have hp : p ∉ ps := (List.nodup_cons.mp hnd).1
        have hj1 : j < ps.length := by simpa using h1
        have hmem : ps[j] ∈ ps := List.getElem_mem hj1
        have hne : p ≠ ps[j] := fun h => hp (h ▸ hmem)
        simp only [List.zip_cons_cons, List.getElem_cons_succ, lookupSym_cons, if_neg hne]
        exact ih as j (List.Nodup.of_cons hnd) (by simpa using hle) hj1

/-- A name that is not a parameter is unbound in the zip. -/
theorem lookupSym_zip_not_mem (ps : List String) :
    ∀ (args : List Exp) (s : String), s ∉ ps → lookupSym (ps.zip args) s = none := by
  induction ps with
  | nil => intro args s _; simp [lookupSym]
  | cons p ps ih =>
    intro args s hs
    cases args with
    | nil => simp [lookupSym]
    | cons a as =>
      rw [List.zip_cons_cons, lookupSym_cons,
        if_neg (fun (h : p = s) => hs (h ▸ List.mem_cons_self p ps))]
      exact ih as s (fun h => hs (List.mem_cons_of_mem _ h))

/-- Elementwise PartialEq on lists is elementwise propositional equality
together with freedom from procedure values on the left. -/
theorem expEq_iff_list (l : List Exp)
    (h : ∀ e ∈ l, ∀ b, expEq e b = true ↔ (e = b ∧ procFree e = true)) :
    ∀ l2, expEqList l l2 = true ↔ (l = l2 ∧ procFreeList l = true) := by
  induction l with
  | nil => intro l2; cases l2 <;> simp [expEqList, procFreeList]
  | cons x xs ihx =>
    intro l2
    cases l2 with
    | nil => simp [expEqList]
    | cons y ys =>
      have hx := h x (by simp) y
      have hrest := ihx (fun e he b => h e (by simp [he]) b) ys
      simp only [expEqList, procFreeList, Bool.and_eq_true, hx, hrest, List.cons.injEq]
      tauto

/-- The PartialEq impl holds exactly on equal, procedure-free expressions:
atoms of the same kind and value, or lists of the same length with
pairwise-equal elements, with no native procedure or closure anywhere. -/
theorem expEq_characterization :
    ∀ a b : Exp, expEq a b = true ↔ (a = b ∧ procFree a = true) := by
  intro a
  induction a using expInduction with
  | hAtom x => intro b; cases b <;> simp [expEq, procFree]
  | hFun f => intro b; cases b <;> simp [expEq, procFree]
  | hProc ps bd e ihb => intro b; cases b <;> simp [expEq, procFree]
  | hList l ihl =>
    intro b
    cases b <;> simp only [expEq, procFree] <;> try simp
    exact expEq_iff_list l ihl _

/-- A successful Env::find returns the nearest owner on the outward chain. -/
theorem find_nearest (n : Nat) :
    ∀ (e : Env) (t : EnvTree) (s : String) (i o : Nat),
      t[i]? = some e → Env.find n e t s i = .ok o → NearestOwner t s i o := by
  induction n with
  | zero => intro e t s i o _ h; simp [Env.find] at h
  | succ n ih =>
    intro e t s i o hi h
    simp only [Env.find] at h
    by_cases hb : (lookupSym e.symbols s).isSome = true
    · rw [if_pos hb] at h
      cases h
      exact NearestOwner.here i e hi hb
    · rw [if_neg hb] at h
      cases ho : e.outer with
      | none => simp only [ho] at h; exact Except.noConfusion h
      | some o2 =>
        simp only [ho] at h
        cases ht : t[o2]? with
        | none => simp only [ht] at h; exact Except.noConfusion h
        | some e2 =>
          simp only [ht] at h
          exact NearestOwner.outer i e o2 o hi (by simpa using hb) ho (ih e2 t s o2 o ht h)

/-- Env::find fails with the Symbol-not-found panic exactly on a chain that reaches a root without the binding. -/
theorem find_unbound (n : Nat) :
    ∀ (e : Env) (t : EnvTree) (s : String) (i : Nat),
      t[i]? = some e → Env.find n e t s i = .error (.symbolNotFound s) → Unbound t s i := by
  induction n with
  | zero => intro e t s i _ h; simp [Env.find] at h
  | succ n ih =>
    intro e t s i hi h
    simp only [Env.find] at h
    by_cases hb : (lookupSym e.symbols s).isSome = true
    · rw [if_pos hb] at h; simp at h
    · rw [if_neg hb] at h
      cases ho : e.outer with
      | none =>
        exact Unbound.root i e hi (by simpa using hb) ho
      | some o2 =>
        simp only [ho] at h
        cases ht : t[o2]? with
        | none => simp only [ht] at h; simp at h
        | some e2 =>
          simp only [ht] at h
          exact Unbound.outer i e o2 hi (by simpa using hb) ho (ih e2 t s o2 ht h)

/-- The nearest owner does bind the symbol. -/
theorem nearestOwner_binds {t : EnvTree} {s : String} {i o : Nat} :
    NearestOwner t s i o → ∃ e, t[o]? = some e ∧ (lookupSym e.symbols s).isSome = true := by
  intro h
  induction h with
  | here i e hi hb => exact ⟨e, hi, hb⟩
  | outer i e o j hi hb ho hn ih => exact ih

/-- Unfolding of the set! special form when the owner lookup succeeds: the value operand is evaluated first, then the owning frame found from the current frame is overwritten in place. -/
theorem eval_set_ok (n : Nat) (t t1 : EnvTree) (f o : Nat) (s : String)
    (e v : Exp) (frame tf : Env)
    (he : eval n e t f = .ok (v, t1)) (hf : t1[f]? = some frame)
    (hfind : Env.find n frame t1 s f = .ok o) (hto : t1[o]? = some tf) :
    eval (n+1) (.List [.Atom (.Symbol "set!"), .Atom (.Symbol s), e]) t f =
      .ok (.Atom (.Bool true), t1.set o (tf.insert s v)) := by
  simp only [eval, is_symbol, nth, asSymbol]
  rw [if_neg (by decide), if_neg (by decide), if_neg (by decide), if_pos (by decide)]
  simp only [he, hf, hfind, hto]

/-- Unfolding of the set! special form when the owner lookup panics: the panic propagates. -/
theorem eval_set_err (n : Nat) (t t1 : EnvTree) (f : Nat) (s : String)
    (e v : Exp) (frame : Env) (er : Err)
    (he : eval n e t f = .ok (v, t1)) (hf : t1[f]? = some frame)
    (hfind : Env.find n frame t1 s f = .error er) :
    eval (n+1) (.List [.Atom (.Symbol "set!"), .Atom (.Symbol s), e]) t f = .error er := by
  simp only [eval, is_symbol, nth, asSymbol]
  rw [if_neg (by decide), if_neg (by decide), if_neg (by decide), if_pos (by decide)]
  simp only [he, hf, hfind]

/-- Replacing the value stored under one key leaves lookups of other keys unchanged. -/
theorem lookupSym_map_replace (m : List (String × Exp)) (k : String) (v : Exp) (k2 : String)
    (h : k2 ≠ k) :
    lookupSym (m.map (fun p => if p.1 = k then (k, v) else p)) k2 = lookupSym m k2 := by
  induction m with
  | nil => rfl
  | cons a m ih =>
    obtain ⟨a1, a2⟩ := a
    by_cases ha : a1 = k
    · subst ha
      have hne : ¬ (a1 = k2) := fun hh => h hh.symm
      simp [lookupSym_cons, hne, ih]
    · simp [lookupSym_cons, ha, ih]

/-- Replacing the value stored under a present key makes its lookup return the new value. -/
theorem lookupSym_map_self (m : List (String × Exp)) (k : String) (v : Exp)
    (h : m.any (fun p => p.1 = k) = true) :
    lookupSym (m.map (fun p => if p.1 = k then (k, v) else p)) k = some v := by
  induction m with
  | nil => simp at h
  | cons a m ih =>
    obtain ⟨a1, a2⟩ := a
    by_cases ha : a1 = k
    · subst ha
      simp [lookupSym_cons]
    · have h2 : m.any (fun p => p.1 = k) = true := by simpa [ha] using h
      simp [lookupSym_cons, ha, ih h2]

/-- Lookup of an absent key gives none. -/
theorem lookupSym_eq_none (m : List (String × Exp)) (k : String)
    (h : m.any (fun p => p.1 = k) = false) : lookupSym m k = none := by
  induction m with
  | nil => rfl
  | cons a m ih =>
    obtain ⟨a1, a2⟩ := a
    simp only [List.any_cons, Bool.or_eq_false_iff, decide_eq_false_iff_not] at h
    rw [lookupSym_cons, if_neg h.1, ih h.2]

/-- Lookup across an append tries the left table first. -/
theorem lookupSym_append (m m2 : List (String × Exp)) (k : String) :
    lookupSym (m ++ m2) k =
      match lookupSym m k with
      | some v => some v
      | none => lookupSym m2 k := by
  induction m with
  | nil => rfl
  | cons a m ih =>
    obtain ⟨a1, a2⟩ := a
    by_cases ha : a1 = k
    · simp only [List.cons_append, lookupSym_cons, if_pos ha]
    · simp only [List.cons_append, lookupSym_cons, if_neg ha, ih]

/-- The HashMap insert model: lookup after insert returns the new value at the inserted key and is unchanged elsewhere. -/
theorem lookupSym_mapInsert (m : List (String × Exp)) (k : String) (v : Exp) (k2 : String) :
    lookupSym (mapInsert m k v) k2 = if k2 = k then some v else lookupSym m k2 := by
  unfold mapInsert
  by_cases hmem : m.any (fun p => p.1 = k) = true
  · rw [if_pos hmem]
    by_cases hk : k2 = k
    · subst hk
      rw [if_pos rfl]
      exact lookupSym_map_self m k2 v hmem
    · rw [if_neg hk]
      exact lookupSym_map_replace m k v k2 hk
  · rw [if_neg hmem, lookupSym_append]
    have hnone : lookupSym m k = none :=
      lookupSym_eq_none m k (Bool.eq_false_iff.mpr hmem)
    by_cases hk : k2 = k
    · subst hk
      rw [if_pos rfl, hnone, lookupSym_cons]
      simp
    · rw [if_neg hk]
      cases hl : lookupSym m k2 with
      | some v2 => rfl
      | none =>
        rw [lookupSym_cons, if_neg (fun hh => hk hh.symm)]
        rfl

/-- C1 counterexample: the claim says that evaluating (y 1 2) with y
unbound yields an UnboundSymbol error result and that the session then
accepts further valid input; in the code every such failure is a panic and
run() has no handler, so the session ends and the following valid
submission (+ 1 2) is never evaluated and produces no result. -/
theorem c1_counterexample :
    runSession 30 initialTree ["(y 1 2)", "(+ 1 2)"] = [.error (.symbolNotFound "y")] ∧
    (.ok (.Atom (.Number 3)) : Except Err Exp) ∉
      runSession 30 initialTree ["(y 1 2)", "(+ 1 2)"] := by
  refine ⟨by decide, by decide⟩

/-- C1 amended: evaluating a form whose head symbol is unbound fails with
the Symbol-not-found panic rather than returning an error result; the
panic terminates the session, so no further submission is processed. A
session whose submissions all succeed processes each of them. -/
theorem c1_panic_ends_session :
    evalString 30 "(y 1 2)" = .error (.symbolNotFound "y") ∧
    runSession 30 initialTree ["(y 1 2)", "(+ 1 2)"] = [.error (.symbolNotFound "y")] ∧
    runSession 30 initialTree ["(+ 1 2)", "(+ 2 3)"] =
      [.ok (.Atom (.Number 3)), .ok (.Atom (.Number 5))] := by
  refine ⟨by decide, by decide, by decide⟩

/-- C2: the reader does wrap a quote-shorthand marker and the following
expression as a two-element list, but the head symbol is the marker token
itself (the single-quote character), not the word quote as the spec
states; consequently evaluating the sugared form fails with the
Symbol-not-found panic on the marker instead of hitting the quote special
form. -/
theorem c2_quote_sugar_uses_marker_token :
    readString 5 (qTok ++ "x") =
      .ok (some (.List [.Atom (.Symbol qTok), .Atom (.Symbol "x")], [])) ∧
    Exp.List [.Atom (.Symbol qTok), .Atom (.Symbol "x")] ≠
      .List [.Atom (.Symbol "quote"), .Atom (.Symbol "x")] ∧
    evalString 10 (qTok ++ "x") = .error (.symbolNotFound qTok) ∧
    evalString 10 "(quote x)" = .ok (.Atom (.Symbol "x")) := by
  refine ⟨by decide, by decide, by decide, by decide⟩

/-- C3: on the five-character token double-quote a b c double-quote, the
classifier returns a String atom that kept the trailing double quote (the
Rust slice 1..=len-1 removes only the first byte), not the String abc the
spec describes. -/
theorem c3_string_atom_keeps_trailing_quote :
    atom "\"abc\"" = .String "abc\"" ∧ Atom.String "abc\"" ≠ .String "abc" := by
  refine ⟨by decide, by decide⟩

/-- C6 counterexample: the spec says apply invokes its first argument on
the flattened remaining arguments. For (apply car (quote ((1 2 3)))) the
flattened behaviour would give car the list (1 2 3) and return 1; the code
passes the remaining arguments unchanged, so car receives ((1 2 3)) and
returns the whole list (1 2 3). -/
theorem c6_counterexample :
    evalString 30 "(apply car (quote ((1 2 3))))" =
      .ok (.List [.Atom (.Number 1), .Atom (.Number 2), .Atom (.Number 3)]) ∧
    invoke 20 (.Function .car) initialTree
        (flattenArgs
          [.List [.List [.Atom (.Number 1), .Atom (.Number 2), .Atom (.Number 3)]]]) =
      .ok (.Atom (.Number 1), initialTree) ∧
    (.ok (.List [.Atom (.Number 1), .Atom (.Number 2), .Atom (.Number 3)]) : Except Err Exp) ≠
      .ok (.Atom (.Number 1)) := by
  refine ⟨by decide, by decide, by decide⟩

/-- C6 amended: the apply builtin invokes the callable it received as its
first argument against the remaining already-evaluated arguments
unchanged, with no flattening, re-entering the invoke path of the
evaluator (shown both for a native procedure and for a closure). -/
theorem c6_apply_passes_args_unchanged :
    (∀ (n : Nat) (c : Exp) (t : EnvTree) (args : List Exp),
      applyBuiltin (n+1) .apply t (c :: args) = invoke n c t args) ∧
    evalString 30 "(apply + 1 2)" = .ok (.Atom (.Number 3)) ∧
    evalString 30 "(apply (lambda (a b) (+ a b)) 3 4)" = .ok (.Atom (.Number 7)) := by
  refine ⟨fun n c t args => rfl, by decide, by decide⟩

/-- C9: in a fresh session, (define x 1) binds x at top level, invoking
((lambda (x) x) 2) returns 2, and a later top-level x still evaluates to
1; the final arena shows the invocation bound x only in the new child
frame (parented to the root) and left the root binding untouched. -/
theorem c9_shadowing :
    runSession 30 initialTree ["(define x 1)", "((lambda (x) x) 2)", "x"] =
      [.ok (.Atom (.Number 1)), .ok (.Atom (.Number 2)), .ok (.Atom (.Number 1))] ∧
    evalForms 30 "(define x 1) ((lambda (x) x) 2) x".data initialTree =
      .ok ([.Atom (.Number 1), .Atom (.Number 2), .Atom (.Number 1)],
        [{ outer := none,
           symbols := standard_env.symbols ++ [("x", .Atom (.Number 1))] },
         { outer := some 0, symbols := [("x", .Atom (.Number 2))] }]) := by
  refine ⟨by decide, by decide⟩

/-- C10: each of the four arithmetic builtins reads exactly its first two
arguments: whenever the first two evaluated arguments are numbers, the
result is the arithmetic combination of those two, whatever further
arguments follow, which are ignored rather than rejected. -/
theorem c10_arith_first_two_args :
    ∀ (a b : Number) (rest : List Exp),
      applyPure .add (.Atom (.Number a) :: .Atom (.Number b) :: rest) =
        .ok (.Atom (.Number (a + b))) ∧
      applyPure .sub (.Atom (.Number a) :: .Atom (.Number b) :: rest) =
        .ok (.Atom (.Number (a - b))) ∧
      applyPure .mul (.Atom (.Number a) :: .Atom (.Number b) :: rest) =
        .ok (.Atom (.Number (a * b))) ∧
      applyPure .div (.Atom (.Number a) :: .Atom (.Number b) :: rest) =
        .ok (.Atom (.Number (a / b))) := by
  intro a b rest
  refine ⟨?_, ?_, ?_, ?_⟩
  · rw [← numAdd_eq]; rfl
  · rw [← numSub_eq]; rfl
  · rw [← numMul_eq]; rfl
  · rw [← numDiv_eq]; rfl

/-- C5: invoking a closure allocates one child frame whose table is the
positional zip of the parameter names with the evaluated arguments and
whose parent is the captured frame id, then evaluates the body there. The
shorter sequence governs the zip: each parameter with an argument at its
position maps to it, a parameter beyond the argument count is unbound,
and a name that is not a parameter (in particular any excess argument) is
absent from the new frame. -/
theorem c5_closure_frame_zip (t : EnvTree) (ps : List String) (args : List Exp)
    (pid : Nat) (body : Exp) (n : Nat) (hnd : ps.Nodup) :
    Env.insert_into t ps args (some pid) =
      (t ++ [{ outer := some pid, symbols := ps.zip args }], t.length) ∧
    invoke (n+1) (.Procedure ps body pid) t args =
      eval n body (t ++ [{ outer := some pid, symbols := ps.zip args }]) t.length ∧
    (∀ (i : Nat) (h1 : i < ps.length) (h2 : i < args.length),
      lookupSym (ps.zip args) ps[i] = some args[i]) ∧
    (∀ (i : Nat) (h1 : i < ps.length), args.length ≤ i →
      lookupSym (ps.zip args) ps[i] = none) ∧
    (∀ s : String, s ∉ ps → lookupSym (ps.zip args) s = none) := by
  have hz : extendZip [] ps args = ps.zip args := by
    simpa using extendZip_nodup ps args [] hnd (by simp)
  refine ⟨?_, ?_, fun i h1 h2 => lookupSym_zip_lt ps args i hnd h1 h2,
    fun i h1 hle => lookupSym_zip_ge ps args i hnd hle h1,
    fun s hs => lookupSym_zip_not_mem ps args s hs⟩
  · simp [Env.insert_into, hz]
  · simp [invoke, Env.insert_into, hz]

/-- C5 witness: two parameters, one argument; the second parameter stays
unbound in the allocated frame. -/
theorem c5_closure_frame_zip_witness :
    Env.insert_into [] ["a", "b"] [.Atom (.Number 1)] (some 0) =
      ([{ outer := some 0, symbols := [("a", .Atom (.Number 1))] }], 0) ∧
    lookupSym [("a", Exp.Atom (.Number 1))] "b" = none := by
  have h := c5_closure_frame_zip [] ["a", "b"] [.Atom (.Number 1)] 0 (.Atom (.Number 7)) 0
    (by decide)
  exact ⟨h.1, h.2.2.2.1 1 (by decide) (by decide)⟩

/-- C7: the equality used by the equal? builtin is structural: it holds
exactly when the two expressions are equal and procedure-free, that is,
atoms of the same kind and value or lists of the same length with
pairwise-equal elements; whenever either side is a native procedure or a
closure it is false, including a procedure compared with itself; and the
equal? builtin returns exactly this equality of its first two arguments. -/
theorem c7_equal_structural :
    (∀ a b : Exp, expEq a b = true ↔ (a = b ∧ procFree a = true)) ∧
    (∀ (f : Builtin) (x : Exp),
      expEq (.Function f) x = false ∧ expEq x (.Function f) = false) ∧
    (∀ (ps : List String) (body : Exp) (env : Nat) (x : Exp),
      expEq (.Procedure ps body env) x = false ∧ expEq x (.Procedure ps body env) = false) ∧
    (∀ (a b : Exp) (rest : List Exp),
      applyPure .equalQ (a :: b :: rest) = .ok (.Atom (.Bool (expEq a b)))) := by
  refine ⟨expEq_characterization, ?_, ?_, fun a b rest => rfl⟩
  · intro f x
    exact ⟨by cases x <;> rfl, by cases x <;> rfl⟩
  · intro ps body env x
    exact ⟨by cases x <;> rfl, by cases x <;> rfl⟩

/-- C7 witness: a concrete list equal to itself, and a native procedure
not equal to itself. -/
theorem c7_equal_structural_witness :
    expEq (.List [.Atom (.Number 1)]) (.List [.Atom (.Number 1)]) = true ∧
    expEq (.Function .car) (.Function .car) = false := by
  exact ⟨(c7_equal_structural.1 _ _).mpr ⟨rfl, by decide⟩,
    (c7_equal_structural.2.1 .car (.Function .car)).1⟩

/-- C4: evaluating (set! s e) in frame f first evaluates e in f; when some
frame on the outward chain from f binds s, the nearest such frame o is
overwritten in place: the form returns Bool(true), the tree is the
evaluated tree with only frame o replaced, in o only the binding of s
changes (to the evaluated value, over an already-present binding, so no
binding is created), and every other frame is untouched; when no frame on
the chain binds s the form fails with the Symbol-not-found panic
(UnboundSymbol). -/
theorem c4_set_semantics (n : Nat) (t t1 : EnvTree) (f : Nat) (s : String)
    (e v : Exp) (frame : Env)
    (he : eval n e t f = .ok (v, t1)) (hf : t1[f]? = some frame) :
    (∀ (o : Nat) (tf : Env), Env.find n frame t1 s f = .ok o → t1[o]? = some tf →
      eval (n+1) (.List [.Atom (.Symbol "set!"), .Atom (.Symbol s), e]) t f =
        .ok (.Atom (.Bool true), t1.set o (tf.insert s v)) ∧
      NearestOwner t1 s f o ∧
      (lookupSym tf.symbols s).isSome = true ∧
      (∀ k2, lookupSym (tf.insert s v).symbols k2 =
        if k2 = s then some v else lookupSym tf.symbols k2) ∧
      (∀ j, j ≠ o → (t1.set o (tf.insert s v))[j]? = t1[j]?)) ∧
    (∀ er : Err, Env.find n frame t1 s f = .error er →
      eval (n+1) (.List [.Atom (.Symbol "set!"), .Atom (.Symbol s), e]) t f = .error er) ∧
    (Env.find n frame t1 s f = .error (.symbolNotFound s) → Unbound t1 s f) := by
  refine ⟨?_, ?_, ?_⟩
  · intro o tf hfind hto
    have hno := find_nearest n frame t1 s f o hf hfind
    refine ⟨eval_set_ok n t t1 f o s e v frame tf he hf hfind hto, hno, ?_, ?_, ?_⟩
    · obtain ⟨e2, he2, hb⟩ := nearestOwner_binds hno
      rw [hto] at he2
      cases he2
      exact hb
    · intro k2
      exact lookupSym_mapInsert tf.symbols s v k2
    · intro j hj
      exact List.getElem?_set_ne hj.symm
  · intro er hfind
    exact eval_set_err n t t1 f s e v frame er he hf hfind
  · intro hfind
    exact find_unbound n frame t1 s f hf hfind

/-- C4 witness: a one-frame tree where set! overwrites the root binding. -/
theorem c4_set_semantics_witness :
    eval 2 (.List [.Atom (.Symbol "set!"), .Atom (.Symbol "x"), .Atom (.Number 2)])
        [{ outer := none, symbols := [("x", .Atom (.Number 1))] }] 0 =
      .ok (.Atom (.Bool true),
        [{ outer := none, symbols := [("x", .Atom (.Number 2))] }]) ∧
    NearestOwner [{ outer := none, symbols := [("x", .Atom (.Number 1))] }] "x" 0 0 := by
  have h := (c4_set_semantics 1
    [{ outer := none, symbols := [("x", .Atom (.Number 1))] }]
    [{ outer := none, symbols := [("x", .Atom (.Number 1))] }]
    0 "x" (.Atom (.Number 2)) (.Atom (.Number 2))
    { outer := none, symbols := [("x", .Atom (.Number 1))] }
    (by decide) (by decide)).1 0
    { outer := none, symbols := [("x", .Atom (.Number 1))] }
    (by decide) (by decide)
  exact ⟨h.1, h.2.1⟩

end Vow
